import Mathlib

/-!
Verification of the method-routing documentation layer of `aide`
(`crates/aide/src/axum/routing.rs`): a shallow embedding of
`ApiMethodRouter`, `set_inferred_response`, the macro-generated
registration functions, `take_path_item`, `merge`, `layer`,
`route_layer` and `with_state`, together with theorems about the
conflict-resolution and aggregation behaviour.
-/

namespace Aide

/-- Modelled from the spec: a documented response value
(`crate::openapi::Response`, outside the excerpt); treated here as an
abstract value identified by a natural number. -/
structure Response where
  val : Nat
deriving DecidableEq

/-- Modelled from the spec: the outcome key used in the registry
(`crate::openapi::StatusCode`); only the explicit `Code` variant is used
by this module. -/
inductive StatusCode where
  | Code (code : Nat)
deriving DecidableEq

/-- Modelled from the spec: `crate::openapi::ReferenceOr`; this module
only ever constructs the `Item` variant. -/
inductive ReferenceOr (α : Type) where
  | Reference (r : String)
  | Item (item : α)
deriving DecidableEq

/-- Key list of an association-list map. -/
def keyList {κ α : Type} (m : List (κ × α)) : List κ :=
  m.map Prod.fst

/-- `IndexMap::contains_key` on the association-list model. -/
def containsKey {κ α : Type} [DecidableEq κ] (m : List (κ × α)) (k : κ) : Bool :=
  m.any fun p => p.1 = k

/-- `IndexMap::get` on the association-list model. -/
def getEntry? {κ α : Type} [DecidableEq κ] : List (κ × α) → κ → Option α
  | [], _ => none
  | (k2, v) :: rest, k => if k2 = k then some v else getEntry? rest k

/-- `IndexMap::insert`: replaces the value in place when the key is
present, otherwise appends at the end (insertion order preserved). -/
def insertIM {κ α : Type} [DecidableEq κ] : List (κ × α) → κ → α → List (κ × α)
  | [], k, v => [(k, v)]
  | (k2, v2) :: rest, k, v =>
    if k2 = k then (k, v) :: rest else (k2, v2) :: insertIM rest k v

/-- `IndexMap::extend`: repeated insertion of the entries of `other`. -/
def extendIM {κ α : Type} [DecidableEq κ] (m other : List (κ × α)) :
    List (κ × α) :=
  other.foldl (fun acc p => insertIM acc p.1 p.2) m

/-- Modelled from the spec: the per-operation response registry
(`crate::openapi::Responses`): a map from explicit status codes to
responses plus one optional slot for the `default` response. -/
structure Responses where
  default : Option (ReferenceOr Response) := none
  responses : List (StatusCode × ReferenceOr Response) := []
deriving DecidableEq

/-- Modelled from the spec: one declared request-shape item contributed
by the input type (parameters, body description); abstract. -/
structure Param where
  val : Nat
deriving DecidableEq

/-- Modelled from the spec: `crate::openapi::Operation`, restricted to
the fields this module reads or writes: the request-shape portion and
the response registry. -/
structure Operation where
  parameters : List Param := []
  responses : Option Responses := none
deriving DecidableEq

/-- The two conflict kinds raised by `set_inferred_response`
(`crate::Error`, outside the excerpt; variants taken from their uses in
the source). -/
inductive Error where
  | InferredResponseConflict (status : Nat)
  | InferredDefaultResponseConflict
deriving DecidableEq

/-- Modelled from the spec: the generation context (`crate::gen::GenContext`):
the response-inference toggle and the accumulating error sink. -/
structure GenContext where
  infer_responses : Bool := true
  errors : List Error := []
deriving DecidableEq

/-- `GenContext::error`: append one non-fatal error to the sink. -/
def GenContext.error (ctx : GenContext) (e : Error) : GenContext :=
  { ctx with errors := ctx.errors ++ [e] }

/-- Direct translation of `set_inferred_response` from
`routing.rs`: initialise the registry when absent; on an occupied key
record a conflict and keep the existing entry, otherwise store the
response. -/
def set_inferred_response (ctx : GenContext) (operation : Operation)
    (status : Option Nat) (res : Response) : GenContext × Operation :=
  let responses := operation.responses.getD {}
  match status with
  | some status =>
    if containsKey responses.responses (StatusCode.Code status) then
      (ctx.error (Error.InferredResponseConflict status),
        { operation with responses := some responses })
    else
      (ctx,
        { operation with
            responses := some
              { responses with
                  responses := insertIM responses.responses
                    (StatusCode.Code status) (ReferenceOr.Item res) } })
  | none =>
    if responses.default.isSome then
      (ctx.error Error.InferredDefaultResponseConflict,
        { operation with responses := some responses })
    else
      (ctx,
        { operation with
            responses := some
              { responses with default := some (ReferenceOr.Item res) } })

/-- Modelled from the spec: the capability of a handler input type
(the `OperationInput` bound): a request-shape contribution and the
early `(outcome key, response)` pairs. -/
structure OperationInput where
  params : List Param := []
  inferred_early_responses : List (Option Nat × Response) := []

/-- Modelled from the spec: the capability of a handler output type
(the `OperationOutput` bound): the inferred `(outcome key, response)`
pairs. -/
structure OperationOutput where
  inferred_responses : List (Option Nat × Response) := []

/-- `I::operation_input(ctx, &mut operation)`: populate the
request-shape portion of the record with the input type's
contribution. -/
def apply_operation_input (i : OperationInput) (operation : Operation) :
    Operation :=
  { operation with parameters := operation.parameters ++ i.params }

/-- One `for (code, res) in pairs` loop calling
`set_inferred_response` on every pair. -/
def apply_inferred_responses (ctx : GenContext) (operation : Operation)
    (pairs : List (Option Nat × Response)) : GenContext × Operation :=
  pairs.foldl (fun acc cr => set_inferred_response acc.1 acc.2 cr.1 cr.2)
    (ctx, operation)

/-- Modelled from the spec: the external transport dispatcher
(`axum::routing::MethodRouter`) as a free term recording the operations
applied to it; this module never inspects dispatcher internals.
Handlers are abstract values identified by naturals. -/
inductive MethodRouter where
  | new : MethodRouter
  | route (method : String) (handler : Nat) : MethodRouter
  | register (r : MethodRouter) (method : String) (handler : Nat) : MethodRouter
  | mergeR (a b : MethodRouter) : MethodRouter
  | layerR (r : MethodRouter) (l : Nat) : MethodRouter
  | routeLayerR (r : MethodRouter) (l : Nat) : MethodRouter
  | withStateR (r : MethodRouter) (s : Nat) : MethodRouter
deriving DecidableEq

/-- Whether a request for `method` reaches `handler` through the
dispatcher term: true when a registration of that handler under that
method occurs in the term. -/
def MethodRouter.dispatches : MethodRouter → String → Nat → Bool
  | .new, _, _ => false
  | .route m h, method, handler => m == method && h == handler
  | .register r m h, method, handler =>
      (m == method && h == handler) || r.dispatches method handler
  | .mergeR a b, method, handler =>
      a.dispatches method handler || b.dispatches method handler
  | .layerR r _, method, handler => r.dispatches method handler
  | .routeLayerR r _, method, handler => r.dispatches method handler
  | .withStateR r _, method, handler => r.dispatches method handler

/-- `ApiMethodRouter`: the documentation mapping from method name to
`Operation` (an `IndexMap` in the source) paired with the inner
dispatcher. -/
structure ApiMethodRouter where
  operations : List (String × Operation) := []
  router : MethodRouter := MethodRouter.new
deriving DecidableEq

/-- `From<MethodRouter> for ApiMethodRouter`: wraps a plain dispatcher
with an empty documentation mapping. -/
def ApiMethodRouter.fromMethodRouter (router : MethodRouter) : ApiMethodRouter :=
  { operations := [], router := router }

/-- `ApiMethodRouter::new`. -/
def ApiMethodRouter.new : ApiMethodRouter :=
  { operations := [], router := MethodRouter.new }

/-- Modelled from the spec: `crate::openapi::PathItem`, one optional
`Operation` slot per fixed HTTP method. -/
structure PathItem where
  delete : Option Operation := none
  get : Option Operation := none
  head : Option Operation := none
  options : Option Operation := none
  patch : Option Operation := none
  post : Option Operation := none
  put : Option Operation := none
  trace : Option Operation := none
deriving DecidableEq

/-- The fixed eight-method key set inserted by the registration
functions (`stringify!` of the macro instantiations). -/
def methodNames : List String :=
  ["delete", "get", "head", "options", "patch", "post", "put", "trace"]

/-- One arm of the `match method` in `take_path_item`; `none` models the
`unreachable!()` arm (a programming-error-class failure). -/
def assignMethod (path : PathItem) (method : String) (op : Operation) :
    Option PathItem :=
  if method = "delete" then some { path with delete := some op }
  else if method = "get" then some { path with get := some op }
  else if method = "head" then some { path with head := some op }
  else if method = "options" then some { path with options := some op }
  else if method = "patch" then some { path with patch := some op }
  else if method = "post" then some { path with post := some op }
  else if method = "put" then some { path with put := some op }
  else if method = "trace" then some { path with trace := some op }
  else none

/-- `take_path_item`: `mem::take` the documentation mapping (leaving it
empty) and fold every removed pair into the path fragment; the first
component is `none` exactly when the `unreachable!()` arm is hit. -/
def take_path_item (self : ApiMethodRouter) :
    Option PathItem × ApiMethodRouter :=
  (List.foldlM (fun path (p : String × Operation) => assignMethod path p.1 p.2)
      {} self.operations,
    { self with operations := [] })

/-- Slot of a `PathItem` addressed by method name (used to state
properties of the drain uniformly). -/
def PathItem.slot (path : PathItem) (method : String) : Option Operation :=
  if method = "delete" then path.delete
  else if method = "get" then path.get
  else if method = "head" then path.head
  else if method = "options" then path.options
  else if method = "patch" then path.patch
  else if method = "post" then path.post
  else if method = "put" then path.put
  else if method = "trace" then path.trace
  else none

/-- Modelled from the spec: `TransformOperation` (`crate::transform`,
outside the excerpt): a wrapper over the in-progress record carrying
the `hidden` flag, created with the flag unset. -/
structure TransformOperation where
  operation : Operation
  hidden : Bool

/-- Modelled from the spec: `TransformOperation::new`. -/
def TransformOperation.new (operation : Operation) : TransformOperation :=
  { operation := operation, hidden := false }

/-- The `method_router_chain_method!` `$name` body: input shape, the
output-inference loop (no toggle check, no early responses), store the
record under the method key and register the handler. -/
def method_router_chain_method (name : String) (self : ApiMethodRouter)
    (handler : Nat) (i : OperationInput) (o : OperationOutput)
    (ctx : GenContext) : GenContext × ApiMethodRouter :=
  let operation : Operation := {}
  let operation := apply_operation_input i operation
  let co := apply_inferred_responses ctx operation o.inferred_responses
  (co.1,
    { self with
        operations := insertIM self.operations name co.2,
        router := self.router.register name handler })

/-- The `method_router_chain_method!` `$name_with` body: input shape;
when inference is enabled, the output loop then the input-early loop;
then the transform, conditional storage on `hidden`, and handler
registration. -/
def method_router_chain_method_with (name : String) (self : ApiMethodRouter)
    (handler : Nat) (i : OperationInput) (o : OperationOutput)
    (transform : TransformOperation → TransformOperation)
    (ctx : GenContext) : GenContext × ApiMethodRouter :=
  let operation : Operation := {}
  let operation := apply_operation_input i operation
  let co :=
    if ctx.infer_responses then
      let co := apply_inferred_responses ctx operation o.inferred_responses
      apply_inferred_responses co.1 co.2 i.inferred_early_responses
    else
      (ctx, operation)
  let t := transform (TransformOperation.new co.2)
  let self :=
    if !t.hidden then
      { self with operations := insertIM self.operations name t.operation }
    else
      self
  (co.1, { self with router := self.router.register name handler })

/-- The `method_router_top_level!` `$name` body: fresh wrapper from the
transport constructor, input shape, the output loop then the
input-early loop (no toggle check), store the record. -/
def method_router_top_level (name : String) (handler : Nat)
    (i : OperationInput) (o : OperationOutput) (ctx : GenContext) :
    GenContext × ApiMethodRouter :=
  let router := ApiMethodRouter.fromMethodRouter (MethodRouter.route name handler)
  let operation : Operation := {}
  let operation := apply_operation_input i operation
  let co := apply_inferred_responses ctx operation o.inferred_responses
  let co := apply_inferred_responses co.1 co.2 i.inferred_early_responses
  (co.1, { router with operations := insertIM router.operations name co.2 })

/-- The `method_router_top_level!` `$name_with` body: fresh wrapper from
the transport constructor; when inference is enabled, the output loop
then the input-early loop; then the transform and conditional storage
on `hidden`. -/
def method_router_top_level_with (name : String) (handler : Nat)
    (i : OperationInput) (o : OperationOutput)
    (transform : TransformOperation → TransformOperation)
    (ctx : GenContext) : GenContext × ApiMethodRouter :=
  let router := ApiMethodRouter.fromMethodRouter (MethodRouter.route name handler)
  let operation : Operation := {}
  let operation := apply_operation_input i operation
  let co :=
    if ctx.infer_responses then
      let co := apply_inferred_responses ctx operation o.inferred_responses
      apply_inferred_responses co.1 co.2 i.inferred_early_responses
    else
      (ctx, operation)
  let t := transform (TransformOperation.new co.2)
  let router :=
    if !t.hidden then
      { router with operations := insertIM router.operations name t.operation }
    else
      router
  (co.1, router)

/-- The `(context, record)` pair the `_with` registration bodies compute
before the transform runs: input shape applied, then, when inference is
enabled, the output loop followed by the input-early loop. -/
def inferred_with (i : OperationInput) (o : OperationOutput)
    (ctx : GenContext) : GenContext × Operation :=
  let operation : Operation := {}
  let operation := apply_operation_input i operation
  if ctx.infer_responses then
    let co := apply_inferred_responses ctx operation o.inferred_responses
    apply_inferred_responses co.1 co.2 i.inferred_early_responses
  else
    (ctx, operation)

/-- `ApiMethodRouter::layer`: wrap the dispatcher, pass the
documentation mapping through. -/
def ApiMethodRouter.layer (self : ApiMethodRouter) (l : Nat) : ApiMethodRouter :=
  { router := self.router.layerR l, operations := self.operations }

/-- `ApiMethodRouter::route_layer`: wrap the dispatcher, pass the
documentation mapping through. -/
def ApiMethodRouter.route_layer (self : ApiMethodRouter) (l : Nat) :
    ApiMethodRouter :=
  { router := self.router.routeLayerR l, operations := self.operations }

/-- `ApiMethodRouter::with_state`: rebind the dispatcher, carry the
documentation mapping over. -/
def ApiMethodRouter.with_state (self : ApiMethodRouter) (s : Nat) :
    ApiMethodRouter :=
  { operations := self.operations, router := self.router.withStateR s }

/-- `ApiMethodRouter::merge`: extend the documentation mapping with the
other mapping and merge the dispatchers. -/
def ApiMethodRouter.merge (self other : ApiMethodRouter) : ApiMethodRouter :=
  { operations := extendIM self.operations other.operations,
    router := self.router.mergeR other.router }

/-- Whether the outcome key `status` is already occupied in the
record's registry. -/
def keyOccupied (operation : Operation) (status : Option Nat) : Bool :=
  match operation.responses with
  | none => false
  | some rs =>
    match status with
    | some code => containsKey rs.responses (StatusCode.Code code)
    | none => rs.default.isSome

/-- The registry entry of a record at an outcome key. -/
def responseAt (operation : Operation) (status : Option Nat) :
    Option (ReferenceOr Response) :=
  match operation.responses with
  | none => none
  | some rs =>
    match status with
    | some code => getEntry? rs.responses (StatusCode.Code code)
    | none => rs.default

/-- The conflict kind reported for an occupied outcome key. -/
def conflictFor : Option Nat → Error
  | some code => Error.InferredResponseConflict code
  | none => Error.InferredDefaultResponseConflict

/-- The public ways of building an `ApiMethodRouter`: the constructors, the
eight chain methods and their `_with` variants, the eight top-level
constructors and their `_with` variants, layering, state rebinding,
merging, and the remainder of a drain. -/
inductive Built : ApiMethodRouter → Prop where
  | new : Built ApiMethodRouter.new
  | fromRouter (r : MethodRouter) : Built (ApiMethodRouter.fromMethodRouter r)
  | chain (name : String) (self : ApiMethodRouter) (handler : Nat)
      (i : OperationInput) (o : OperationOutput) (ctx : GenContext)
      (hname : name ∈ methodNames) (hself : Built self) :
      Built (method_router_chain_method name self handler i o ctx).2
  | chainWith (name : String) (self : ApiMethodRouter) (handler : Nat)
      (i : OperationInput) (o : OperationOutput)
      (transform : TransformOperation → TransformOperation)
      (ctx : GenContext) (hname : name ∈ methodNames) (hself : Built self) :
      Built (method_router_chain_method_with name self handler i o transform
        ctx).2
  | topLevel (name : String) (handler : Nat) (i : OperationInput)
      (o : OperationOutput) (ctx : GenContext)
      (hname : name ∈ methodNames) :
      Built (method_router_top_level name handler i o ctx).2
  | topLevelWith (name : String) (handler : Nat) (i : OperationInput)
      (o : OperationOutput)
      (transform : TransformOperation → TransformOperation)
      (ctx : GenContext) (hname : name ∈ methodNames) :
      Built (method_router_top_level_with name handler i o transform ctx).2
  | layerB (self : ApiMethodRouter) (l : Nat) (hself : Built self) :
      Built (self.layer l)
  | routeLayerB (self : ApiMethodRouter) (l : Nat) (hself : Built self) :
      Built (self.route_layer l)
  | withStateB (self : ApiMethodRouter) (s : Nat) (hself : Built self) :
      Built (self.with_state s)
  | mergeB (a b : ApiMethodRouter) (ha : Built a) (hb : Built b) :
      Built (a.merge b)
  | drained (self : ApiMethodRouter) (hself : Built self) :
      Built (take_path_item self).2

/-- A generation context with inference enabled and no recorded errors. -/
def ctxOn : GenContext := { infer_responses := true, errors := [] }

/-- A generation context with inference disabled and no recorded errors. -/
def ctxOff : GenContext := { infer_responses := false, errors := [] }

/-- Input adapter inferring the early response `(200, res 11)`. -/
def inpC1 : OperationInput :=
  { params := [], inferred_early_responses := [(some 200, ⟨11⟩)] }

/-- Output adapter inferring the response `(200, res 10)`. -/
def outC1 : OperationOutput := { inferred_responses := [(some 200, ⟨10⟩)] }

/-- A record whose registry already holds a response at key `200`. -/
def opOccupied : Operation :=
  { parameters := [],
    responses := some
      { default := none,
        responses := [(StatusCode.Code 200, ReferenceOr.Item ⟨1⟩)] } }

/-- Input adapter inferring the early response `(422, res 20)`. -/
def inpC3 : OperationInput :=
  { params := [], inferred_early_responses := [(some 422, ⟨20⟩)] }

/-- Output adapter inferring no responses. -/
def outC3 : OperationOutput := { inferred_responses := [] }

/-- Output adapter inferring the response `(200, res 30)`. -/
def outC4 : OperationOutput := { inferred_responses := [(some 200, ⟨30⟩)] }

/-- Output adapter inferring the responses `(200, res 40)` and
`(404, res 41)`. -/
def outC3w : OperationOutput :=
  { inferred_responses := [(some 200, ⟨40⟩), (some 404, ⟨41⟩)] }

/-- A transform that marks the record hidden. -/
def tfHide : TransformOperation → TransformOperation :=
  fun t => { t with hidden := true }

/-- A transform that leaves the record visible. -/
def tfKeep : TransformOperation → TransformOperation :=
  fun t => { t with hidden := false }

/-- A wrapper with one documented `get` operation. -/
def routerC5 : ApiMethodRouter :=
  { operations := [("get", opOccupied)], router := MethodRouter.new }

section MapLemmas

variable {κ α : Type} [DecidableEq κ]

theorem keyList_cons (p : κ × α) (rest : List (κ × α)) :
    keyList (p :: rest) = p.1 :: keyList rest := rfl

theorem containsKey_eq_isSome (m : List (κ × α)) (k : κ) :
    containsKey m k = (getEntry? m k).isSome := by
  induction m with
  | nil => rfl
  | cons p rest ih =>
    obtain ⟨k2, v2⟩ := p
    by_cases h : k2 = k
    · simp [containsKey, getEntry?, h]
    · simpa [containsKey, getEntry?, h] using ih

theorem getEntry?_insert_self (m : List (κ × α)) (k : κ) (v : α) :
    getEntry? (insertIM m k v) k = some v := by
  induction m with
  | nil => simp [insertIM, getEntry?]
  | cons p rest ih =>
    obtain ⟨k2, v2⟩ := p
    by_cases h : k2 = k <;> simp [insertIM, getEntry?, h, ih]

theorem containsKey_cons (k2 : κ) (v2 : α) (rest : List (κ × α)) (k : κ) :
    containsKey ((k2, v2) :: rest) k = (decide (k2 = k) || containsKey rest k) := by
  simp [containsKey]

theorem getEntry?_insert_ne (m : List (κ × α)) (k k' : κ) (v : α)
    (h : k' ≠ k) :
    getEntry? (insertIM m k v) k' = getEntry? m k' := by
  induction m with
  | nil =>
    have h3 : ¬ k = k' := fun heq => h heq.symm
    simp [insertIM, getEntry?, h3]
  | cons p rest ih =>
    obtain ⟨k2, v2⟩ := p
    by_cases h2 : k2 = k
    · subst h2
      have h3 : ¬ k2 = k' := fun heq => h heq.symm
      simp [insertIM, getEntry?, h3, h]
    · by_cases h3 : k2 = k' <;> simp [insertIM, getEntry?, h2, h3, h, ih]

theorem keyList_insert (m : List (κ × α)) (k : κ) (v : α) :
    keyList (insertIM m k v)
      = if containsKey m k then keyList m else keyList m ++ [k] := by
  induction m with
  | nil => simp [insertIM, keyList, containsKey]
  | cons p rest ih =>
    obtain ⟨k2, v2⟩ := p
    by_cases h : k2 = k
    · subst h
      simp [insertIM, keyList_cons, containsKey_cons]
    · simp only [insertIM, if_neg h, keyList_cons, containsKey_cons, h,
        decide_eq_false h, Bool.false_or, ih]
      by_cases hc : containsKey rest k <;> simp [keyList_cons, ih, hc]

theorem mem_keyList_insert (m : List (κ × α)) (k k' : κ) (v : α)
    (h : k' ∈ keyList (insertIM m k v)) : k' ∈ keyList m ∨ k' = k := by
  rw [keyList_insert] at h
  by_cases hc : containsKey m k
  · rw [if_pos hc] at h
    exact Or.inl h
  · rw [if_neg hc] at h
    rcases List.mem_append.mp h with h1 | h1
    · exact Or.inl h1
    · exact Or.inr (by simpa using h1)

theorem getEntry?_eq_none_of_not_mem (m : List (κ × α)) (k : κ)
    (h : k ∉ keyList m) : getEntry? m k = none := by
  induction m with
  | nil => rfl
  | cons p rest ih =>
    obtain ⟨k2, v2⟩ := p
    rw [keyList_cons] at h
    simp only [List.mem_cons, not_or] at h
    have h1 : ¬ k2 = k := fun heq => h.1 heq.symm
    simp [getEntry?, h1, ih h.2]

theorem extendIM_cons (m : List (κ × α)) (k : κ) (v : α)
    (rest : List (κ × α)) :
    extendIM m ((k, v) :: rest) = extendIM (insertIM m k v) rest := rfl

theorem getEntry?_extend_not_mem (m other : List (κ × α)) (k : κ)
    (h : k ∉ keyList other) :
    getEntry? (extendIM m other) k = getEntry? m k := by
  induction other generalizing m with
  | nil => rfl
  | cons p rest ih =>
    obtain ⟨k2, v2⟩ := p
    rw [keyList_cons] at h
    simp only [List.mem_cons, not_or] at h
    rw [extendIM_cons, ih _ h.2, getEntry?_insert_ne _ _ _ _ h.1]

theorem getEntry?_extend_mem (m other : List (κ × α)) (k : κ)
    (hnd : (keyList other).Nodup) (h : k ∈ keyList other) :
    getEntry? (extendIM m other) k = getEntry? other k := by
  induction other generalizing m with
  | nil => exact absurd h (by simp [keyList])
  | cons p rest ih =>
    obtain ⟨k2, v2⟩ := p
    rw [keyList_cons] at hnd h
    rcases List.nodup_cons.mp hnd with ⟨hk2, hnd2⟩
    by_cases hk : k2 = k
    · subst hk
      rw [extendIM_cons, getEntry?_extend_not_mem _ _ _ hk2,
        getEntry?_insert_self]
      simp [getEntry?]
    · have hmem : k ∈ keyList rest := by
        rcases List.mem_cons.mp h with h1 | h1
        · exact absurd h1.symm hk
        · exact h1
      rw [extendIM_cons, ih _ hnd2 hmem]
      simp [getEntry?, hk]

theorem mem_keyList_extend (m other : List (κ × α)) (k : κ)
    (h : k ∈ keyList (extendIM m other)) :
    k ∈ keyList m ∨ k ∈ keyList other := by
  induction other generalizing m with
  | nil => exact Or.inl h
  | cons p rest ih =>
    obtain ⟨k2, v2⟩ := p
    rw [extendIM_cons] at h
    rcases ih _ h with h1 | h2
    · rcases mem_keyList_insert _ _ _ _ h1 with h3 | h3
      · exact Or.inl h3
      · exact Or.inr (by rw [keyList_cons]; exact List.mem_cons.mpr (Or.inl h3))
    · exact Or.inr (by rw [keyList_cons]; exact List.mem_cons.mpr (Or.inr h2))

end MapLemmas

/-- C1: at the failing input — a top-level `get` registration whose output
type infers `(200, res 10)` and whose input type infers the early response
`(200, res 11)`, with inference enabled — the code keeps the output-inferred
response at key `200` and records `InferredResponseConflict 200`: the early
response does not override the output response, contradicting the claim and
the source's own comment that early responses overwrite output responses on
purpose. -/
theorem top_level_early_response_conflict_not_override :
    ((getEntry? (method_router_top_level "get" 7 inpC1 outC1 ctxOn).2.operations
        "get").map fun op => responseAt op (some 200))
      = some (some (ReferenceOr.Item ⟨10⟩))
    ∧ (method_router_top_level "get" 7 inpC1 outC1 ctxOn).1.errors
        = [Error.InferredResponseConflict 200]
    ∧ ¬ (((getEntry? (method_router_top_level "get" 7 inpC1 outC1
          ctxOn).2.operations "get").map fun op => responseAt op (some 200))
        = some (some (ReferenceOr.Item ⟨11⟩))) := by
  decide

/-- C2: inserting an inferred response at an occupied outcome key leaves the
registry unchanged and records exactly one conflict, named by the status code
for an explicit key and by the distinct default-conflict kind for the default
key; inserting at an unoccupied key stores the response and records no
conflict. -/
theorem set_inferred_response_conflict_spec (ctx : GenContext)
    (operation : Operation) (status : Option Nat) (res : Response) :
    (keyOccupied operation status = true →
      (set_inferred_response ctx operation status res).2.responses
          = operation.responses
        ∧ (set_inferred_response ctx operation status res).1
            = ctx.error (conflictFor status))
    ∧ (keyOccupied operation status = false →
      responseAt (set_inferred_response ctx operation status res).2 status
          = some (ReferenceOr.Item res)
        ∧ (set_inferred_response ctx operation status res).1 = ctx) := by
  cases hR : operation.responses with
  | none =>
    constructor
    · intro h
      simp [keyOccupied, hR] at h
    · intro _
      cases status with
      | some code =>
        simp [set_inferred_response, hR, responseAt, containsKey,
          getEntry?, insertIM]
      | none =>
        simp [set_inferred_response, hR, responseAt]
  | some rs =>
    cases status with
    | some code =>
      by_cases hc : containsKey rs.responses (StatusCode.Code code)
      · constructor
        · intro _
          simp [set_inferred_response, hR, hc, conflictFor]
        · intro h
          simp [keyOccupied, hR, hc] at h
      · constructor
        · intro h
          simp [keyOccupied, hR, hc] at h
        · intro _
          simp [set_inferred_response, hR, hc, responseAt,
            getEntry?_insert_self]
    | none =>
      by_cases hd : rs.default.isSome
      · constructor
        · intro _
          simp [set_inferred_response, hR, hd, conflictFor]
        · intro h
          simp [keyOccupied, hR, hd] at h
      · constructor
        · intro h
          simp [keyOccupied, hR, hd] at h
        · intro _
          simp [set_inferred_response, hR, hd, responseAt]

/-- Witness for `set_inferred_response_conflict_spec` at the occupied key
`200` of `opOccupied`. -/
theorem set_inferred_response_conflict_spec_witness :
    keyOccupied opOccupied (some 200) = true
    ∧ ((set_inferred_response ctxOn opOccupied (some 200) ⟨2⟩).2.responses
          = opOccupied.responses
        ∧ (set_inferred_response ctxOn opOccupied (some 200) ⟨2⟩).1
            = ctxOn.error (conflictFor (some 200))) :=
  ⟨by decide,
    (set_inferred_response_conflict_spec ctxOn opOccupied (some 200) ⟨2⟩).1
      (by decide)⟩

/-- C3 counterexample: a chain `get` registration without a transform whose
input type infers the early response `(422, res 20)` stores a record with no
entry at key `422` at all — the chain no-transform variant never applies
input-early responses, so the claimed §4.1 ordering does not run there. -/
theorem chain_method_skips_early_responses_cex :
    ((getEntry? (method_router_chain_method "get" ApiMethodRouter.new 7 inpC3
        outC3 ctxOn).2.operations "get").map fun op => responseAt op (some 422))
      = some none
    ∧ ¬ (((getEntry? (method_router_chain_method "get" ApiMethodRouter.new 7
          inpC3 outC3 ctxOn).2.operations "get").map fun op =>
            responseAt op (some 422))
        = some (some (ReferenceOr.Item ⟨20⟩))) := by
  decide

/-- C4 counterexample: a chain `get` registration without a transform,
performed while response inference is disabled, still stores the
output-inferred entry at key `200`: the no-transform variants have no
inference-enabled guard, so inference-derived entries are added even when
inference is disabled. -/
theorem chain_method_ignores_disabled_inference_cex :
    ((getEntry? (method_router_chain_method "get" ApiMethodRouter.new 7 {}
        outC4 ctxOff).2.operations "get").map fun op => responseAt op (some 200))
      = some (some (ReferenceOr.Item ⟨30⟩))
    ∧ ¬ (((getEntry? (method_router_chain_method "get" ApiMethodRouter.new 7 {}
          outC4 ctxOff).2.operations "get").map fun op => op.responses)
        = some none) := by
  decide

theorem keyOccupied_eq_isSome (operation : Operation) (status : Option Nat) :
    keyOccupied operation status = (responseAt operation status).isSome := by
  cases hR : operation.responses with
  | none => cases status <;> simp [keyOccupied, responseAt, hR]
  | some rs =>
    cases status <;>
      simp [keyOccupied, responseAt, hR, containsKey_eq_isSome]

theorem responseAt_set_self (ctx : GenContext) (operation : Operation)
    (status : Option Nat) (res : Response)
    (h : keyOccupied operation status = false) :
    responseAt (set_inferred_response ctx operation status res).2 status
      = some (ReferenceOr.Item res) := by
  cases hR : operation.responses with
  | none =>
    cases status with
    | some code =>
      simp [set_inferred_response, hR, responseAt, containsKey, getEntry?,
        insertIM]
    | none => simp [set_inferred_response, hR, responseAt]
  | some rs =>
    cases status with
    | some code =>
      have hc : containsKey rs.responses (StatusCode.Code code) = false := by
        simpa [keyOccupied, hR] using h
      simp [set_inferred_response, hR, hc, responseAt, getEntry?_insert_self]
    | none =>
      have hd : rs.default.isSome = false := by
        simpa [keyOccupied, hR] using h
      simp [set_inferred_response, hR, hd, responseAt]

theorem responseAt_set_ne (ctx : GenContext) (operation : Operation)
    (status : Option Nat) (res : Response) (status' : Option Nat)
    (h : status' ≠ status) :
    responseAt (set_inferred_response ctx operation status res).2 status'
      = responseAt operation status' := by
  cases hR : operation.responses with
  | none =>
    cases status with
    | some code =>
      cases status' with
      | some code' =>
        have hcc : StatusCode.Code code' ≠ StatusCode.Code code := by
          intro heq
          cases heq
          exact h rfl
        have hne : ¬ code = code' := fun heq => h (congrArg some heq.symm)
        simp [set_inferred_response, hR, responseAt, containsKey,
          getEntry?_insert_ne _ _ _ _ hcc, getEntry?, hne]
      | none => simp [set_inferred_response, hR, responseAt, containsKey]
    | none =>
      cases status' with
      | some code' => simp [set_inferred_response, hR, responseAt, getEntry?]
      | none => exact absurd rfl h
  | some rs =>
    cases status with
    | some code =>
      by_cases hc : containsKey rs.responses (StatusCode.Code code)
      · simp [set_inferred_response, hR, hc, responseAt]
      · cases status' with
        | some code' =>
          have hcc : StatusCode.Code code' ≠ StatusCode.Code code := by
            intro heq
            cases heq
            exact h rfl
          simp [set_inferred_response, hR, hc, responseAt,
            getEntry?_insert_ne _ _ _ _ hcc]
        | none => simp [set_inferred_response, hR, hc, responseAt]
    | none =>
      by_cases hd : rs.default.isSome
      · simp [set_inferred_response, hR, hd, responseAt]
      · cases status' with
        | some code' => simp [set_inferred_response, hR, hd, responseAt]
        | none => exact absurd rfl h

theorem apply_inferred_responses_cons (ctx : GenContext)
    (operation : Operation) (st : Option Nat) (res : Response)
    (rest : List (Option Nat × Response)) :
    apply_inferred_responses ctx operation ((st, res) :: rest)
      = apply_inferred_responses (set_inferred_response ctx operation st res).1
          (set_inferred_response ctx operation st res).2 rest := rfl

theorem responseAt_fold_frame (pairs : List (Option Nat × Response))
    (ctx : GenContext) (operation : Operation) (status : Option Nat)
    (h : ∀ p ∈ pairs, p.1 ≠ status) :
    responseAt (apply_inferred_responses ctx operation pairs).2 status
      = responseAt operation status := by
  induction pairs generalizing ctx operation with
  | nil => rfl
  | cons q rest ih =>
    obtain ⟨st, res⟩ := q
    rw [apply_inferred_responses_cons,
      ih _ _ (fun q2 hq2 => h q2 (List.mem_cons_of_mem _ hq2)),
      responseAt_set_ne _ _ _ _ _
        (fun heq => h (st, res) (List.mem_cons_self _ _) heq.symm)]

theorem responseAt_fold_stored (pairs : List (Option Nat × Response))
    (ctx : GenContext) (operation : Operation)
    (hnd : pairs.Pairwise fun a b => a.1 ≠ b.1)
    (hfree : ∀ p ∈ pairs, keyOccupied operation p.1 = false) :
    ∀ p ∈ pairs,
      responseAt (apply_inferred_responses ctx operation pairs).2 p.1
        = some (ReferenceOr.Item p.2) := by
  induction pairs generalizing ctx operation with
  | nil => intro p hp; cases hp
  | cons q rest ih =>
    obtain ⟨st, res⟩ := q
    rcases List.pairwise_cons.mp hnd with ⟨hhead, htail⟩
    intro p hp
    rw [apply_inferred_responses_cons]
    rcases List.mem_cons.mp hp with heq | hp2
    · subst heq
      rw [responseAt_fold_frame _ _ _ _
        (fun q2 hq2 => (hhead q2 hq2).symm)]
      exact responseAt_set_self ctx operation st res
        (hfree (st, res) (List.mem_cons_self _ _))
    · refine ih (set_inferred_response ctx operation st res).1
        (set_inferred_response ctx operation st res).2 htail ?_ p hp2
      intro q2 hq2
      rw [keyOccupied_eq_isSome,
        responseAt_set_ne _ _ _ _ _ ((hhead q2 hq2).symm),
        ← keyOccupied_eq_isSome]
      exact hfree q2 (List.mem_cons_of_mem _ hq2)

theorem chain_operations (name : String) (self : ApiMethodRouter)
    (handler : Nat) (i : OperationInput) (o : OperationOutput)
    (ctx : GenContext) :
    (method_router_chain_method name self handler i o ctx).2.operations
      = insertIM self.operations name
          (apply_inferred_responses ctx (apply_operation_input i {})
            o.inferred_responses).2 := rfl

/-- C3 amended: a chain-method registration without a transform applies only
the output-type inferred responses (unconditionally, with no
inference-enabled check), then stores the Operation Record under the method
key and registers the handler on the inner dispatcher; the input-type
early responses are never consulted by this variant. -/
theorem chain_method_output_only_spec (name : String) (self : ApiMethodRouter)
    (handler : Nat) (i : OperationInput) (o : OperationOutput)
    (es : List (Option Nat × Response)) (ctx : GenContext)
    (hnd : o.inferred_responses.Pairwise fun a b => a.1 ≠ b.1) :
    method_router_chain_method name self handler
        { params := i.params, inferred_early_responses := es } o ctx
      = method_router_chain_method name self handler i o ctx
    ∧ (method_router_chain_method name self handler i o ctx).2.router
        = self.router.register name handler
    ∧ ∀ p ∈ o.inferred_responses,
        (getEntry? (method_router_chain_method name self handler i o
            ctx).2.operations name).map (fun op => responseAt op p.1)
          = some (some (ReferenceOr.Item p.2)) := by
  refine ⟨rfl, rfl, ?_⟩
  intro p hp
  rw [chain_operations, getEntry?_insert_self]
  exact congrArg some
    (responseAt_fold_stored o.inferred_responses ctx
      (apply_operation_input i {}) hnd (fun q _ => rfl) p hp)

/-- Witness for `chain_method_output_only_spec` at a concrete registration
with two distinct output-inferred status codes. -/
theorem chain_method_output_only_spec_witness :
    method_router_chain_method "get" ApiMethodRouter.new 7
        { params := ({} : OperationInput).params,
          inferred_early_responses := [(some 1, ⟨9⟩)] } outC3w ctxOn
      = method_router_chain_method "get" ApiMethodRouter.new 7 {} outC3w
          ctxOn :=
  (chain_method_output_only_spec "get" ApiMethodRouter.new 7 {} outC3w
    [(some 1, ⟨9⟩)] ctxOn (by decide)).1

/-- C4 amended: the `_with` variants (chain and top-level) respect the
inference toggle: when response inference is disabled in the generation
context, the registration behaves exactly as if both inference adapters
produced no responses — no inference-derived entries are added and no
conflict is recorded — while the no-transform variants apply inferred
responses unconditionally. -/
theorem with_variants_disabled_no_inference (name : String)
    (self : ApiMethodRouter) (handler : Nat) (i : OperationInput)
    (o : OperationOutput)
    (transform : TransformOperation → TransformOperation)
    (ctx : GenContext) (hdis : ctx.infer_responses = false) :
    method_router_chain_method_with name self handler i o transform ctx
      = method_router_chain_method_with name self handler
          { params := i.params, inferred_early_responses := [] }
          { inferred_responses := [] } transform ctx
    ∧ (method_router_chain_method_with name self handler i o transform
        ctx).1 = ctx
    ∧ method_router_top_level_with name handler i o transform ctx
      = method_router_top_level_with name handler
          { params := i.params, inferred_early_responses := [] }
          { inferred_responses := [] } transform ctx
    ∧ (method_router_top_level_with name handler i o transform ctx).1
        = ctx := by
  refine ⟨?_, ?_, ?_, ?_⟩ <;>
    simp [method_router_chain_method_with, method_router_top_level_with,
      apply_operation_input, hdis]

/-- Witness for `with_variants_disabled_no_inference` at a concrete
registration with inference disabled. -/
theorem with_variants_disabled_no_inference_witness :
    (method_router_chain_method_with "get" ApiMethodRouter.new 7 inpC1 outC1
        (fun t => t) ctxOff).1 = ctxOff :=
  (with_variants_disabled_no_inference "get" ApiMethodRouter.new 7 inpC1
    outC1 (fun t => t) ctxOff rfl).2.1

/-- C9: `layer`, `route_layer` and `with_state` leave the documentation
mapping exactly unchanged; only the inner dispatcher is transformed. -/
theorem layering_preserves_operations (self : ApiMethodRouter)
    (l l2 s : Nat) :
    (self.layer l).operations = self.operations
    ∧ (self.route_layer l2).operations = self.operations
    ∧ (self.with_state s).operations = self.operations
    ∧ (self.layer l).router = self.router.layerR l
    ∧ (self.route_layer l2).router = self.router.routeLayerR l2
    ∧ (self.with_state s).router = self.router.withStateR s :=
  ⟨rfl, rfl, rfl, rfl, rfl, rfl⟩

/-- C10: the From conversion wraps a plain dispatcher with an empty
documentation mapping, so merging a plain dispatcher into a wrapper leaves
the wrapper's documentation mapping unchanged while the dispatchers are
merged. -/
theorem from_method_router_empty_operations (m : MethodRouter)
    (self : ApiMethodRouter) :
    (ApiMethodRouter.fromMethodRouter m).operations = []
    ∧ (self.merge (ApiMethodRouter.fromMethodRouter m)).operations
        = self.operations
    ∧ (self.merge (ApiMethodRouter.fromMethodRouter m)).router
        = self.router.mergeR m :=
  ⟨rfl, rfl, rfl⟩

theorem slot_default (m : String) : PathItem.slot {} m = none := by
  unfold PathItem.slot
  split_ifs <;> rfl

theorem assignMethod_delete (path : PathItem) (v : Operation) :
    assignMethod path "delete" v = some { path with delete := some v } := by
  simp [assignMethod]

theorem slot_update_delete (path : PathItem) (v : Operation) (m : String) :
    PathItem.slot { path with delete := some v } m
      = if m = "delete" then some v else path.slot m := by
  simp only [PathItem.slot]
  split_ifs <;> first | rfl | simp_all

theorem assignMethod_get (path : PathItem) (v : Operation) :
    assignMethod path "get" v = some { path with get := some v } := by
  simp [assignMethod]

theorem slot_update_get (path : PathItem) (v : Operation) (m : String) :
    PathItem.slot { path with get := some v } m
      = if m = "get" then some v else path.slot m := by
  simp only [PathItem.slot]
  split_ifs <;> first | rfl | simp_all

theorem assignMethod_head (path : PathItem) (v : Operation) :
    assignMethod path "head" v = some { path with head := some v } := by
  simp [assignMethod]

theorem slot_update_head (path : PathItem) (v : Operation) (m : String) :
    PathItem.slot { path with head := some v } m
      = if m = "head" then some v else path.slot m := by
  simp only [PathItem.slot]
  split_ifs <;> first | rfl | simp_all

theorem assignMethod_options (path : PathItem) (v : Operation) :
    assignMethod path "options" v = some { path with options := some v } := by
  simp [assignMethod]

theorem slot_update_options (path : PathItem) (v : Operation) (m : String) :
    PathItem.slot { path with options := some v } m
      = if m = "options" then some v else path.slot m := by
  simp only [PathItem.slot]
  split_ifs <;> first | rfl | simp_all

theorem assignMethod_patch (path : PathItem) (v : Operation) :
    assignMethod path "patch" v = some { path with patch := some v } := by
  simp [assignMethod]

theorem slot_update_patch (path : PathItem) (v : Operation) (m : String) :
    PathItem.slot { path with patch := some v } m
      = if m = "patch" then some v else path.slot m := by
  simp only [PathItem.slot]
  split_ifs <;> first | rfl | simp_all

theorem assignMethod_post (path : PathItem) (v : Operation) :
    assignMethod path "post" v = some { path with post := some v } := by
  simp [assignMethod]

theorem slot_update_post (path : PathItem) (v : Operation) (m : String) :
    PathItem.slot { path with post := some v } m
      = if m = "post" then some v else path.slot m := by
  simp only [PathItem.slot]
  split_ifs <;> first | rfl | simp_all

theorem assignMethod_put (path : PathItem) (v : Operation) :
    assignMethod path "put" v = some { path with put := some v } := by
  simp [assignMethod]

theorem slot_update_put (path : PathItem) (v : Operation) (m : String) :
    PathItem.slot { path with put := some v } m
      = if m = "put" then some v else path.slot m := by
  simp only [PathItem.slot]
  split_ifs <;> first | rfl | simp_all

theorem assignMethod_trace (path : PathItem) (v : Operation) :
    assignMethod path "trace" v = some { path with trace := some v } := by
  simp [assignMethod]

theorem slot_update_trace (path : PathItem) (v : Operation) (m : String) :
    PathItem.slot { path with trace := some v } m
      = if m = "trace" then some v else path.slot m := by
  simp only [PathItem.slot]
  split_ifs <;> first | rfl | simp_all

theorem assignMethod_slot (path : PathItem) (k : String) (v : Operation)
    (hk : k ∈ methodNames) :
    ∃ p2, assignMethod path k v = some p2
      ∧ ∀ m, p2.slot m = if m = k then some v else path.slot m := by
  fin_cases hk
  · exact ⟨_, assignMethod_delete path v, slot_update_delete path v⟩
  · exact ⟨_, assignMethod_get path v, slot_update_get path v⟩
  · exact ⟨_, assignMethod_head path v, slot_update_head path v⟩
  · exact ⟨_, assignMethod_options path v, slot_update_options path v⟩
  · exact ⟨_, assignMethod_patch path v, slot_update_patch path v⟩
  · exact ⟨_, assignMethod_post path v, slot_update_post path v⟩
  · exact ⟨_, assignMethod_put path v, slot_update_put path v⟩
  · exact ⟨_, assignMethod_trace path v, slot_update_trace path v⟩

theorem drain_fold (l : List (String × Operation)) (p0 : PathItem)
    (hwf : ∀ k ∈ keyList l, k ∈ methodNames)
    (hnd : (keyList l).Nodup) :
    ∃ p, List.foldlM (fun path (q : String × Operation) =>
        assignMethod path q.1 q.2) p0 l = some p
      ∧ ∀ m, p.slot m = (getEntry? l m).or (p0.slot m) := by
  induction l generalizing p0 with
  | nil => exact ⟨p0, rfl, fun m => rfl⟩
  | cons q rest ih =>
    obtain ⟨k, v⟩ := q
    rw [keyList_cons] at hwf hnd
    rcases List.nodup_cons.mp hnd with ⟨hknr, hndr⟩
    obtain ⟨p1, h1, hs1⟩ :=
      assignMethod_slot p0 k v (hwf k (List.mem_cons_self _ _))
    obtain ⟨p, h2, hs2⟩ :=
      ih p1 (fun k2 hk2 => hwf k2 (List.mem_cons_of_mem _ hk2)) hndr
    refine ⟨p, ?_, ?_⟩
    · rw [List.foldlM_cons]
      show (assignMethod p0 k v).bind _ = some p
      rw [h1]
      exact h2
    · intro m
      rw [hs2 m, hs1 m]
      by_cases hm : m = k
      · subst hm
        rw [getEntry?_eq_none_of_not_mem rest m hknr]
        simp [getEntry?]
      · have : ¬ k = m := fun heq => hm heq.symm
        simp [getEntry?, this, hm]

/-- C5: draining a wrapper with well-formed, duplicate-free method keys
empties its documentation mapping, leaves the inner dispatcher untouched,
fills each method's slot of the fragment with exactly the removed record
for that method (leaving unregistered slots empty), and a second drain of
the same wrapper yields a fragment with all eight slots empty. -/
theorem take_path_item_spec (self : ApiMethodRouter)
    (hwf : ∀ k ∈ keyList self.operations, k ∈ methodNames)
    (hnd : (keyList self.operations).Nodup) :
    (take_path_item self).2 = { self with operations := [] }
    ∧ (∀ m, ((take_path_item self).1.map fun path => path.slot m)
        = some (getEntry? self.operations m))
    ∧ take_path_item { self with operations := [] }
        = (some {}, { self with operations := [] }) := by
  obtain ⟨p, hfold, hslot⟩ := drain_fold self.operations {} hwf hnd
  refine ⟨rfl, ?_, rfl⟩
  intro m
  show ((List.foldlM (fun path (q : String × Operation) =>
      assignMethod path q.1 q.2) {} self.operations).map
      fun path => path.slot m) = _
  rw [hfold, Option.map_some', hslot m, slot_default, Option.or_none]

/-- Witness for `take_path_item_spec`: draining a wrapper documented only
for `get` puts its record in the fragment's `get` slot. -/
theorem take_path_item_spec_witness :
    ((take_path_item routerC5).1.map fun path => path.slot "get")
      = some (getEntry? routerC5.operations "get") :=
  (take_path_item_spec routerC5 (by decide) (by decide)).2.1 "get"

theorem containsKey_insert_self {κ α : Type} [DecidableEq κ]
    (m : List (κ × α)) (k : κ) (v : α) :
    containsKey (insertIM m k v) k = true := by
  rw [containsKey_eq_isSome, getEntry?_insert_self]
  rfl

theorem containsKey_iff_mem {κ α : Type} [DecidableEq κ]
    (m : List (κ × α)) (k : κ) :
    containsKey m k = true ↔ k ∈ keyList m := by
  induction m with
  | nil => simp [containsKey, keyList]
  | cons p rest ih =>
    obtain ⟨k2, v2⟩ := p
    by_cases h : k2 = k
    · simp [containsKey_cons, keyList_cons, h]
    · have h2 : ¬ k = k2 := fun heq => h heq.symm
      simp [containsKey_cons, keyList_cons, h, h2, ih]

/-- C6: a `_with` registration whose transform leaves the actual record
marked hidden does not store the record (the chain variant leaves the
documentation mapping unchanged, the top-level variant produces an empty
mapping whose drained fragment is all-empty), while the handler is still
registered on the inner dispatcher; when the transform leaves the record
visible, it is stored under the method key. The hypotheses condition on
the hidden flag of the record the transform actually receives. -/
theorem transform_hidden_spec (name : String) (self : ApiMethodRouter)
    (handler : Nat) (i : OperationInput) (o : OperationOutput)
    (transform : TransformOperation → TransformOperation)
    (ctx : GenContext) :
    ((transform (TransformOperation.new (inferred_with i o ctx).2)).hidden
        = true →
      (method_router_chain_method_with name self handler i o transform
          ctx).2.operations = self.operations
      ∧ (method_router_chain_method_with name self handler i o transform
          ctx).2.router = self.router.register name handler
      ∧ (method_router_top_level_with name handler i o transform
          ctx).2.operations = []
      ∧ (take_path_item (method_router_top_level_with name handler i o
          transform ctx).2).1 = some {}
      ∧ (method_router_top_level_with name handler i o transform
          ctx).2.router.dispatches name handler = true)
    ∧ ((transform (TransformOperation.new (inferred_with i o ctx).2)).hidden
        = false →
      containsKey (method_router_chain_method_with name self handler i o
          transform ctx).2.operations name = true
      ∧ containsKey (method_router_top_level_with name handler i o
          transform ctx).2.operations name = true) := by
  constructor
  · intro h
    simp only [inferred_with] at h
    refine ⟨?_, ?_, ?_, ?_, ?_⟩ <;>
      simp [method_router_chain_method_with, method_router_top_level_with,
        h, take_path_item, ApiMethodRouter.fromMethodRouter,
        MethodRouter.dispatches]
  · intro h
    simp only [inferred_with] at h
    constructor <;>
      simp [method_router_chain_method_with, method_router_top_level_with,
        h, containsKey_insert_self, ApiMethodRouter.fromMethodRouter]

/-- Witness for `transform_hidden_spec`: a hiding transform leaves the chain
wrapper's mapping unchanged; the identity (pass-through) transform leaves
the record visible, so it is stored under `get`. -/
theorem transform_hidden_spec_witness :
    (method_router_chain_method_with "get" ApiMethodRouter.new 7 inpC1 outC1
        tfHide ctxOn).2.operations = ApiMethodRouter.new.operations
    ∧ containsKey (method_router_chain_method_with "get" ApiMethodRouter.new
        7 inpC1 outC1 (fun t => t) ctxOn).2.operations "get" = true :=
  ⟨((transform_hidden_spec "get" ApiMethodRouter.new 7 inpC1 outC1 tfHide
      ctxOn).1 rfl).1,
    ((transform_hidden_spec "get" ApiMethodRouter.new 7 inpC1 outC1
      (fun t => t) ctxOn).2 rfl).1⟩

/-- C7: merging combines the documentation mappings key-for-key: every
method key of `other` is present in the merged mapping with `other`'s
entry (last-merged wins), keys absent from `other` keep `self`'s entry,
the dispatchers are merged, and merging wrappers documented for the
disjoint methods GET and POST yields a wrapper whose drained fragment has
both slots populated. -/
theorem merge_operations_spec (self other : ApiMethodRouter)
    (hnd : (keyList other.operations).Nodup) :
    (∀ k ∈ keyList other.operations,
      containsKey (self.merge other).operations k = true
      ∧ getEntry? (self.merge other).operations k
          = getEntry? other.operations k)
    ∧ (∀ k, k ∉ keyList other.operations →
      getEntry? (self.merge other).operations k
        = getEntry? self.operations k)
    ∧ (self.merge other).router = self.router.mergeR other.router
    ∧ ∀ (g p : Operation) (ra rb : MethodRouter),
      (take_path_item ((ApiMethodRouter.mk [("get", g)] ra).merge
          (ApiMethodRouter.mk [("post", p)] rb))).1
        = some { get := some g, post := some p } := by
  refine ⟨?_, ?_, rfl, ?_⟩
  · intro k hk
    have hmem := getEntry?_extend_mem self.operations other.operations k
      hnd hk
    refine ⟨?_, hmem⟩
    show containsKey (extendIM self.operations other.operations) k = true
    rw [containsKey_eq_isSome, hmem, ← containsKey_eq_isSome]
    exact (containsKey_iff_mem _ _).mpr hk
  · intro k hk
    exact getEntry?_extend_not_mem self.operations other.operations k hk
  · intro g p ra rb
    rfl

/-- Witness for `merge_operations_spec`: merging two one-method wrappers
merges the dispatchers. -/
theorem merge_operations_spec_witness :
    ((ApiMethodRouter.mk [("get", opOccupied)] MethodRouter.new).merge
        (ApiMethodRouter.mk [("post", opOccupied)] MethodRouter.new)).router
      = MethodRouter.new.mergeR MethodRouter.new :=
  (merge_operations_spec (ApiMethodRouter.mk [("get", opOccupied)]
      MethodRouter.new)
    (ApiMethodRouter.mk [("post", opOccupied)] MethodRouter.new)
    (by decide)).2.2.1

theorem assignMethod_isSome (path : PathItem) (k : String) (v : Operation)
    (hk : k ∈ methodNames) : (assignMethod path k v).isSome = true := by
  obtain ⟨p2, h2, _⟩ := assignMethod_slot path k v hk
  rw [h2]
  rfl

theorem drain_fold_isSome (l : List (String × Operation)) :
    ∀ p0 : PathItem, (∀ k ∈ keyList l, k ∈ methodNames) →
      (List.foldlM (fun path (q : String × Operation) =>
        assignMethod path q.1 q.2) p0 l).isSome = true := by
  induction l with
  | nil => intro p0 _; rfl
  | cons q rest ih =>
    intro p0 hwf
    obtain ⟨k, v⟩ := q
    rw [keyList_cons] at hwf
    obtain ⟨p2, h2, _⟩ :=
      assignMethod_slot p0 k v (hwf k (List.mem_cons_self _ _))
    rw [List.foldlM_cons]
    show ((assignMethod p0 k v).bind _).isSome = true
    rw [h2]
    exact ih p2 (fun k2 hk2 => hwf k2 (List.mem_cons_of_mem _ hk2))

theorem chain_with_operations_cases (name : String) (self : ApiMethodRouter)
    (handler : Nat) (i : OperationInput) (o : OperationOutput)
    (transform : TransformOperation → TransformOperation)
    (ctx : GenContext) :
    (method_router_chain_method_with name self handler i o transform
        ctx).2.operations = self.operations
    ∨ ∃ op, (method_router_chain_method_with name self handler i o transform
        ctx).2.operations = insertIM self.operations name op := by
  simp only [method_router_chain_method_with]
  split <;> split <;>
    first
    | exact Or.inl rfl
    | exact Or.inr ⟨_, rfl⟩

theorem top_level_with_operations_cases (name : String) (handler : Nat)
    (i : OperationInput) (o : OperationOutput)
    (transform : TransformOperation → TransformOperation)
    (ctx : GenContext) :
    (method_router_top_level_with name handler i o transform
        ctx).2.operations = []
    ∨ ∃ op, (method_router_top_level_with name handler i o transform
        ctx).2.operations = insertIM [] name op := by
  simp only [method_router_top_level_with, ApiMethodRouter.fromMethodRouter]
  split <;> split <;>
    first
    | exact Or.inl rfl
    | exact Or.inr ⟨_, rfl⟩

theorem top_level_operations_cases (name : String) (handler : Nat)
    (i : OperationInput) (o : OperationOutput) (ctx : GenContext) :
    ∃ op, (method_router_top_level name handler i o ctx).2.operations
      = insertIM [] name op :=
  ⟨_, rfl⟩

theorem built_keys_valid (r : ApiMethodRouter) (h : Built r) :
    ∀ k ∈ keyList r.operations, k ∈ methodNames := by
  induction h with
  | new =>
    intro k hk
    simp [ApiMethodRouter.new, keyList] at hk
  | fromRouter r =>
    intro k hk
    simp [ApiMethodRouter.fromMethodRouter, keyList] at hk
  | chain name self handler i o ctx hname hself ih =>
    intro k hk
    rw [chain_operations] at hk
    rcases mem_keyList_insert _ _ _ _ hk with h1 | h1
    · exact ih k h1
    · exact h1 ▸ hname
  | chainWith name self handler i o transform ctx hname hself ih =>
    intro k hk
    rcases chain_with_operations_cases name self handler i o transform ctx
      with hc | ⟨op, hc⟩
    · rw [hc] at hk
      exact ih k hk
    · rw [hc] at hk
      rcases mem_keyList_insert _ _ _ _ hk with h1 | h1
      · exact ih k h1
      · exact h1 ▸ hname
  | topLevel name handler i o ctx hname =>
    intro k hk
    obtain ⟨op, hc⟩ := top_level_operations_cases name handler i o ctx
    rw [hc] at hk
    rcases mem_keyList_insert _ _ _ _ hk with h1 | h1
    · exact absurd h1 (by simp [keyList])
    · exact h1 ▸ hname
  | topLevelWith name handler i o transform ctx hname =>
    intro k hk
    rcases top_level_with_operations_cases name handler i o transform ctx
      with hc | ⟨op, hc⟩
    · rw [hc] at hk
      exact absurd hk (by simp [keyList])
    · rw [hc] at hk
      rcases mem_keyList_insert _ _ _ _ hk with h1 | h1
      · exact absurd h1 (by simp [keyList])
      · exact h1 ▸ hname
  | layerB self l hself ih =>
    intro k hk
    exact ih k hk
  | routeLayerB self l hself ih =>
    intro k hk
    exact ih k hk
  | withStateB self s hself ih =>
    intro k hk
    exact ih k hk
  | mergeB a b ha hb iha ihb =>
    intro k hk
    rcases mem_keyList_extend a.operations b.operations k hk with h1 | h1
    · exact iha k h1
    · exact ihb k h1
  | drained self hself ih =>
    intro k hk
    exact absurd hk (by simp [take_path_item, keyList])

/-- C8: during a drain, a method key outside the fixed eight-method set
hits the internal-consistency fault (modelled as the `none` result), and
every wrapper built through the public registration operations drains
without hitting it, since those insert only the eight fixed method-name
keys. -/
theorem drain_unknown_method_fault_spec :
    (∀ (op : Operation) (r : MethodRouter),
      (take_path_item { operations := [("connect", op)], router := r }).1
        = none)
    ∧ ∀ r, Built r → (take_path_item r).1.isSome = true := by
  constructor
  · intro op r
    rfl
  · intro r hr
    exact drain_fold_isSome r.operations {} (built_keys_valid r hr)

/-- Witness for `drain_unknown_method_fault_spec`: a wrapper built by the
top-level `get` constructor drains successfully. -/
theorem drain_unknown_method_fault_spec_witness :
    (take_path_item (method_router_top_level "get" 7 inpC1 outC1
        ctxOn).2).1.isSome = true :=
  drain_unknown_method_fault_spec.2 _
    (Built.topLevel "get" 7 inpC1 outC1 ctxOn (by decide))

end Aide
